import Mathlib

/-!
Verification of the Meshtastic JSON bridge
(`src/apps/pi-forwarder/scripts/meshtastic-json-bridge.py`).

The script has three functions with logic:

* `to_jsonable` — the value normalizer turning an arbitrary runtime value
  into a JSON-safe value;
* `unwrap_packet` — payload extraction (unwrapping one level of a
  `"packet"`-keyed wrapper dict);
* `on_receive` — the receive handler: unwrap, normalize, serialize,
  print one line.

We embed the Python runtime values the script can encounter as the
inductive type `RuntimeValue` below, translate the three functions, and
prove the specified properties.
-/

namespace MeshtasticBridge

/-- A protocol-buffer field value, as far as the bridge's normalization can
observe it through `google.protobuf.json_format.MessageToDict`.  Scalar
field kinds are booleans, (32-bit) integers, floats (kept as opaque
tokens, since the normalizer passes floats through untouched), strings and
enum values (which carry both a symbolic name and an integer code); a
field may also hold a nested message or a repeated list of values. -/
inductive PBValue : Type where
  | pbool (b : Bool)
  | pint (n : Int)
  | pfloat (t : String)
  | pstr (s : String)
  | penum (name : String) (code : Int)
  | pmsg (fields : List (String × Nat × PBValue))
  | prep (vs : List PBValue)
  deriving Repr

/-- The populated fields of a protobuf-like message: declared field name,
positional field number, and value, in field order. -/
abbrev PBFields : Type := List (String × Nat × PBValue)

/-- A Python runtime value as the bridge can receive it.

* `none`/`bool`/`int`/`str` are the JSON scalars; `float` is kept as an
  opaque token (the normalizer never inspects floats, it passes them
  through).
* `bytes` is the immutable `bytes` type, `bytearray` the mutable one —
  kept distinct because `isinstance(value, bytes)` is false for a
  `bytearray`.
* `list`, `tuple`, `set` carry their elements in iteration order (for a
  `set` this order is implementation-defined).
* `dict` carries its key/value pairs in insertion order; keys of a real
  Python dict are unique.
* `obj` models any other object via the capabilities `to_jsonable` probes:
  `pb` is `some conv` when the object has `ListFields` and `DESCRIPTOR`
  attributes (protobuf-like), where `conv = some fields` means
  `MessageToDict` succeeds on the message with the given populated fields
  and `conv = none` means it raises; `td` is `some r` when the object has
  a callable `to_dict`, where `r = some v` means it returns `v` and
  `r = none` means it raises; `attrs` is `some a` when the object has a
  `__dict__`, where `a = some kvs` gives the attribute name/value pairs in
  insertion order and `a = none` means reading the view raises; `srep` is
  the object's `str()` text. -/
inductive RuntimeValue : Type where
  | none
  | bool (b : Bool)
  | int (n : Int)
  | float (t : String)
  | str (s : String)
  | bytes (bs : List (Fin 256))
  | bytearray (bs : List (Fin 256))
  | list (xs : List RuntimeValue)
  | tuple (xs : List RuntimeValue)
  | set (xs : List RuntimeValue)
  | dict (kvs : List (RuntimeValue × RuntimeValue))
  | obj (pb : Option (Option PBFields))
        (td : Option (Option RuntimeValue))
        (attrs : Option (Option (List (String × RuntimeValue))))
        (srep : String)
  deriving Repr

/-- The lowercase hexadecimal digit for `n < 16` (as used by Python's
`bytes.hex()`). -/
def hexChar (n : Nat) : Char :=
  if n < 10 then Char.ofNat (48 + n) else Char.ofNat (87 + n)

/-- The character stream of Python's `bytes.hex()`: two lowercase hex
digits per byte, most significant nibble first, no separators. -/
def bytesHexChars : List (Fin 256) → List Char
  | [] => []
  | b :: rest => hexChar (b.val / 16) :: hexChar (b.val % 16) :: bytesHexChars rest

/-- Python's `bytes.hex()`. -/
def bytesHex (bs : List (Fin 256)) : String :=
  String.mk (bytesHexChars bs)

/-- Concatenation of per-element escape sequences. -/
def escapeList {α : Type} (esc : α → List Char) : List α → List Char
  | [] => []
  | c :: rest => esc c ++ escapeList esc rest

/-- The single-quote character. -/
def sqChar : Char := Char.ofNat 39

/-- The double-quote character. -/
def dqChar : Char := Char.ofNat 34

/-- The backslash character. -/
def bslChar : Char := Char.ofNat 92

/-- How `repr` of a Python `str` escapes one character, given the chosen
quote character: backslash and the quote are backslash-escaped, tab,
newline and carriage return use their mnemonic escapes, other control
characters use `\xhh`, everything else is kept literal. -/
def pyCharEscape (quote : Char) (c : Char) : List Char :=
  if c = bslChar then [bslChar, bslChar]
  else if c = quote then [bslChar, quote]
  else if c = Char.ofNat 9 then [bslChar, 't']
  else if c = Char.ofNat 10 then [bslChar, 'n']
  else if c = Char.ofNat 13 then [bslChar, 'r']
  else if c.toNat < 32 || c.toNat = 127 then
    [bslChar, 'x', hexChar (c.toNat / 16 % 16), hexChar (c.toNat % 16)]
  else [c]

/-- Python's quote choice for `repr` of strings and bytes: a single quote,
unless the content contains a single quote and no double quote. -/
def pyQuoteChoice (hasSingle hasDouble : Bool) : Char :=
  if hasSingle && !hasDouble then dqChar else sqChar

/-- The character stream of `repr` of a Python `str`. -/
def pyStrReprChars (s : String) : List Char :=
  let q := pyQuoteChoice (s.data.contains sqChar) (s.data.contains dqChar)
  q :: (escapeList (pyCharEscape q) s.data ++ [q])

/-- How `repr` of Python `bytes` escapes one byte, given the chosen quote:
backslash and the quote are backslash-escaped, tab/newline/carriage return
use mnemonic escapes, printable ASCII is kept literal, everything else
becomes `\xhh`. -/
def pyByteEscape (quote : Char) (b : Fin 256) : List Char :=
  if b.val = 92 then [bslChar, bslChar]
  else if b.val = quote.toNat then [bslChar, quote]
  else if b.val = 9 then [bslChar, 't']
  else if b.val = 10 then [bslChar, 'n']
  else if b.val = 13 then [bslChar, 'r']
  else if 32 ≤ b.val && b.val < 127 then [Char.ofNat b.val]
  else [bslChar, 'x', hexChar (b.val / 16), hexChar (b.val % 16)]

/-- The character stream of `repr` of Python `bytes`: a `b` prefix, then
the quoted, escaped content. -/
def pyBytesReprChars (bs : List (Fin 256)) : List Char :=
  let q := pyQuoteChoice (bs.contains ⟨39, by omega⟩) (bs.contains ⟨34, by omega⟩)
  'b' :: q :: (escapeList (pyByteEscape q) bs ++ [q])

/-- Python's `repr` on runtime values (used by `str` on containers, whose
`str` and `repr` agree; for an arbitrary object we carry its display text
in the `srep` component). -/
def pyRepr : RuntimeValue → String
  | .none => "None"
  | .bool b => if b then "True" else "False"
  | .int n => toString n
  | .float t => t
  | .str s => String.mk (pyStrReprChars s)
  | .bytes bs => String.mk (pyBytesReprChars bs)
  | .bytearray bs => "bytearray(" ++ String.mk (pyBytesReprChars bs) ++ ")"
  | .list xs =>
      "[" ++ String.intercalate ", " (xs.attach.map (fun x => pyRepr x.1)) ++ "]"
  | .tuple xs =>
      match xs with
      | [x] => "(" ++ pyRepr x ++ ",)"
      | xs => "(" ++ String.intercalate ", " (xs.attach.map (fun x => pyRepr x.1)) ++ ")"
  | .set xs =>
      if xs.isEmpty then "set()"
      else "\x7b" ++ String.intercalate ", " (xs.attach.map (fun x => pyRepr x.1)) ++ "\x7d"
  | .dict kvs =>
      "\x7b" ++ String.intercalate ", "
        (kvs.attach.map (fun kv => pyRepr kv.1.1 ++ ": " ++ pyRepr kv.1.2)) ++ "\x7d"
  | .obj _ _ _ srep => srep
decreasing_by
  · have h1 := List.sizeOf_lt_of_mem x.2
    simp at h1 ⊢
    omega
  · simp
    omega
  · have h1 := List.sizeOf_lt_of_mem x.2
    simp at h1 ⊢
    omega
  · have h1 := List.sizeOf_lt_of_mem x.2
    simp at h1 ⊢
    omega
  · obtain ⟨⟨k, v⟩, hm⟩ := kv
    have h1 := List.sizeOf_lt_of_mem hm
    simp at h1 ⊢
    omega
  · obtain ⟨⟨k, v⟩, hm⟩ := kv
    have h1 := List.sizeOf_lt_of_mem hm
    simp at h1 ⊢
    omega

/-- Python's `str`: the string itself on `str` values, `repr` otherwise
(on the value shapes relevant here). -/
def pyStr : RuntimeValue → String
  | .str s => s
  | v => pyRepr v

/-- The per-value conversion performed by
`google.protobuf.json_format.MessageToDict` as the bridge invokes it
(`preserving_proto_field_name=True, use_integers_for_enums=True`): scalars
pass through, enum values become their integer codes (not their symbolic
names), nested messages become dicts keyed by the declared field names,
repeated fields become lists. -/
def pbToRT : PBValue → RuntimeValue
  | .pbool b => .bool b
  | .pint n => .int n
  | .pfloat t => .float t
  | .pstr s => .str s
  | .penum _ code => .int code
  | .pmsg fields => .dict (fields.attach.map (fun f => (.str f.1.1, pbToRT f.1.2.2)))
  | .prep vs => .list (vs.attach.map (fun v => pbToRT v.1))
decreasing_by
  · obtain ⟨⟨a, num, v⟩, hm⟩ := f
    have h1 := List.sizeOf_lt_of_mem hm
    simp at h1 ⊢
    omega
  · have h1 := List.sizeOf_lt_of_mem v.2
    simp at h1 ⊢
    omega

/-- The call `MessageToDict(msg, preserving_proto_field_name=True,
use_integers_for_enums=True)` on a message with the given populated
fields: a dict keyed by the declared field names (never the positional
field numbers), each value converted by `pbToRT`, in field order. -/
def messageToDict (fields : PBFields) : RuntimeValue :=
  .dict (fields.map (fun f => (.str f.1, pbToRT f.2.2)))

/-- The normalizer `to_jsonable` of the bridge script, rule for rule:

1. `None`, `str`, `int`, `float`, `bool` pass through;
2. `bytes` becomes `value.hex()`;
3. a dict is rebuilt with `str(k)` keys and recursively converted values;
4. `list`/`tuple`/`set` become a list of recursively converted elements;
5. a protobuf-like object (has `ListFields` and `DESCRIPTOR`) is converted
   with `MessageToDict` and the resulting dict is converted recursively;
   if `MessageToDict` raises, the exception is swallowed and the next
   rules are tried;
6. an object with a callable `to_dict` has its result converted
   recursively; on a raise, fall through;
7. an object with a `__dict__` is turned into a dict of its attributes,
   skipping keys that start with `_`, each value converted recursively;
   if that dict is empty (or the view raises), fall through;
8. anything else becomes `str(value)`. -/
def to_jsonable : RuntimeValue → RuntimeValue
  | .none => .none
  | .bool b => .bool b
  | .int n => .int n
  | .float t => .float t
  | .str s => .str s
  | .bytes bs => .str (bytesHex bs)
  | .dict kvs =>
      .dict (kvs.attach.map (fun kv => (.str (pyStr kv.1.1), to_jsonable kv.1.2)))
  | .list xs => .list (xs.attach.map (fun x => to_jsonable x.1))
  | .tuple xs => .list (xs.attach.map (fun x => to_jsonable x.1))
  | .set xs => .list (xs.attach.map (fun x => to_jsonable x.1))
  | .obj (some (some fields)) _ _ _ => to_jsonable (messageToDict fields)
  | .obj _ (some (some v)) _ _ => to_jsonable v
  | .obj _ _ (some (some kvs)) srep =>
      let converted := (kvs.filter (fun kv => !(kv.1.startsWith "_"))).attach.map
          (fun kv => (RuntimeValue.str kv.1.1, to_jsonable kv.1.2))
      if converted.isEmpty then .str srep else .dict converted
  | .obj _ _ _ srep => .str srep
  | .bytearray bs => .str (pyStr (.bytearray bs))
decreasing_by
  · obtain ⟨⟨k, v⟩, hm⟩ := kv
    have h1 := List.sizeOf_lt_of_mem hm
    simp at h1 ⊢
    omega
  · have h1 := List.sizeOf_lt_of_mem x.2
    simp at h1 ⊢
    omega
  · have h1 := List.sizeOf_lt_of_mem x.2
    simp at h1 ⊢
    omega
  · have h1 := List.sizeOf_lt_of_mem x.2
    simp at h1 ⊢
    omega
  · have maplem : ∀ {α β : Type} [SizeOf α] [SizeOf β] (g : α → β) (l : List α),
        (∀ x ∈ l, sizeOf (g x) ≤ sizeOf x) → sizeOf (l.map g) ≤ sizeOf l := by
      intro α β _ _ g l h
      induction l with
      | nil => simp
      | cons a t iht =>
          have ha := h a (by simp)
          have ht := iht (fun x hx => h x (List.mem_cons_of_mem a hx))
          simp only [List.map]
          simp only [List.cons.sizeOf_spec]
          omega
    have key : ∀ (n : Nat) (w : PBValue), sizeOf w ≤ n → sizeOf (pbToRT w) ≤ sizeOf w := by
      intro n
      induction n using Nat.strong_induction_on with
      | _ n ih =>
        intro w hw
        cases w with
        | pbool b => simp [pbToRT]
        | pint m => simp [pbToRT]
        | pfloat t => simp [pbToRT]
        | pstr s => simp [pbToRT]
        | penum a c => simp [pbToRT]
        | pmsg fs =>
            rw [pbToRT, List.attach_map_val fs (fun p => (RuntimeValue.str p.1, pbToRT p.2.2))]
            simp only [RuntimeValue.dict.sizeOf_spec, PBValue.pmsg.sizeOf_spec]
            have hmap := maplem (fun p => (RuntimeValue.str p.1, pbToRT p.2.2)) fs ?_
            · omega
            · intro x hx
              obtain ⟨a, num, v⟩ := x
              have hlt := List.sizeOf_lt_of_mem hx
              have hv : sizeOf (pbToRT v) ≤ sizeOf v := by
                apply ih (sizeOf v) ?_ v (Nat.le_refl _)
                simp [PBValue.pmsg.sizeOf_spec] at hw
                simp at hlt
                omega
              simp
              omega
        | prep vs =>
            rw [pbToRT, List.attach_map_val vs pbToRT]
            simp only [RuntimeValue.list.sizeOf_spec, PBValue.prep.sizeOf_spec]
            have hmap := maplem pbToRT vs ?_
            · omega
            · intro x hx
              have hlt := List.sizeOf_lt_of_mem hx
              apply ih (sizeOf x) ?_ x (Nat.le_refl _)
              simp [PBValue.prep.sizeOf_spec] at hw
              omega
    have hfin := key (sizeOf (PBValue.pmsg fields)) (.pmsg fields) (Nat.le_refl _)
    rw [pbToRT, List.attach_map_val fields
        (fun p => (RuntimeValue.str p.1, pbToRT p.2.2))] at hfin
    simp only [messageToDict]
    simp only [RuntimeValue.dict.sizeOf_spec, RuntimeValue.obj.sizeOf_spec,
      PBValue.pmsg.sizeOf_spec] at hfin ⊢
    have : (fields.map (fun f => (RuntimeValue.str f.1, pbToRT f.2.2))) =
        (fields.map (fun p => (RuntimeValue.str p.1, pbToRT p.2.2))) := rfl
    rw [this]
    simp only [Option.some.sizeOf_spec]
    omega
  · simp
    omega
  · obtain ⟨⟨k, v⟩, hm⟩ := kv
    have h1 := List.sizeOf_lt_of_mem (List.mem_of_mem_filter hm)
    simp at h1 ⊢
    omega

/-- Whether a runtime value is a Python `str`. -/
def isStrKey : RuntimeValue → Bool
  | .str _ => true
  | _ => false

/-- Whether a runtime value is a Python `dict`. -/
def isDictV : RuntimeValue → Bool
  | .dict _ => true
  | _ => false

/-- The keys of a dict value, in order (empty for non-dicts). -/
def dictKeys : RuntimeValue → List RuntimeValue
  | .dict kvs => kvs.map (fun kv => kv.1)
  | _ => []

/-- Whether a runtime value is already JSON-safe: null, bool, number,
string, a list of JSON-safe values, or a dict with string keys and
JSON-safe values.  This is the shape the normalizer's output always has
and the only shape ever handed to the serializer. -/
def jsonSafe : RuntimeValue → Bool
  | .none | .bool _ | .int _ | .float _ | .str _ => true
  | .list xs => xs.attach.all (fun x => jsonSafe x.1)
  | .dict kvs => kvs.attach.all (fun kv => isStrKey kv.1.1 && jsonSafe kv.1.2)
  | _ => false
decreasing_by
  · have h1 := List.sizeOf_lt_of_mem x.2
    simp at h1 ⊢
    omega
  · obtain ⟨⟨k, v⟩, hm⟩ := kv
    have h1 := List.sizeOf_lt_of_mem hm
    simp at h1 ⊢
    omega

/-- How `json.dumps` escapes one character with `ensure_ascii=False`:
double quote and backslash are backslash-escaped, the usual control
characters get mnemonic escapes, remaining control characters become
`\u00hh`, and everything else — including non-ASCII — stays literal. -/
def jsonCharEscape (c : Char) : List Char :=
  if c = dqChar then [bslChar, dqChar]
  else if c = bslChar then [bslChar, bslChar]
  else if c = Char.ofNat 8 then [bslChar, 'b']
  else if c = Char.ofNat 9 then [bslChar, 't']
  else if c = Char.ofNat 10 then [bslChar, 'n']
  else if c = Char.ofNat 12 then [bslChar, 'f']
  else if c = Char.ofNat 13 then [bslChar, 'r']
  else if c.toNat < 32 then
    [bslChar, 'u', '0', '0', hexChar (c.toNat / 16 % 16), hexChar (c.toNat % 16)]
  else [c]

/-- A JSON string literal for `s`, as `json.dumps` writes it with
`ensure_ascii=False`. -/
def jsonQuote (s : String) : String :=
  String.mk (dqChar :: (escapeList jsonCharEscape s.data ++ [dqChar]))

mutual

/-- The call `json.dumps(value, ensure_ascii=False)` (default separators, so the
result has no newlines): `some` of the JSON text, or `none` when the
value is not JSON-serializable — the bridge only ever serializes
normalizer output, whose dict keys are always strings, so the
string-keys-only model of dict serialization is the path exercised. -/
def dumps : RuntimeValue → Option String
  | .none => some "null"
  | .bool b => some (if b then "true" else "false")
  | .int n => some (toString n)
  | .float t => some t
  | .str s => some (jsonQuote s)
  | .list xs =>
      match dumpsElems xs with
      | some parts => some ("[" ++ String.intercalate ", " parts ++ "]")
      | Option.none => Option.none
  | .dict kvs =>
      match dumpsPairs kvs with
      | some parts => some ("\x7b" ++ String.intercalate ", " parts ++ "\x7d")
      | Option.none => Option.none
  | _ => Option.none
termination_by v => sizeOf v
decreasing_by
  all_goals simp

/-- Serialize list elements in order; fails if any element fails. -/
def dumpsElems : List RuntimeValue → Option (List String)
  | [] => some []
  | x :: rest =>
      match dumps x, dumpsElems rest with
      | some s, some parts => some (s :: parts)
      | _, _ => Option.none
termination_by l => sizeOf l
decreasing_by
  all_goals simp <;> omega

/-- Serialize dict entries in order as `"key": value`; fails if a key is
not a string or a value fails. -/
def dumpsPairs : List (RuntimeValue × RuntimeValue) → Option (List String)
  | [] => some []
  | (RuntimeValue.str k, v) :: rest =>
      match dumps v, dumpsPairs rest with
      | some s, some parts => some ((jsonQuote k ++ ": " ++ s) :: parts)
      | _, _ => Option.none
  | _ => Option.none
termination_by l => sizeOf l
decreasing_by
  all_goals simp <;> omega

end

/-- Python `d.get(key)` (and `d[key]` where the entry is known present)
for a string `key` on the modelled dict: the value at the first entry
whose key is the string `key`, `none` when absent.  Keys of a real Python
dict are unique, so first-match agrees with Python lookup. -/
def dGet (kvs : List (RuntimeValue × RuntimeValue)) (key : String) : Option RuntimeValue :=
  (kvs.find? (fun (kv : RuntimeValue × RuntimeValue) =>
    match kv.1 with | .str s => s == key | _ => false)).map (fun kv => kv.2)

/-- The function `unwrap_packet` of the bridge script.  `packet` is the `packet`
keyword argument; `RuntimeValue.none` stands both for an absent argument
and for an explicit `None`, which the source conflates (`packet if packet
is not None else kwargs.get("packet")`).  `kwargs` are the remaining
keyword arguments.  If the resolved value is a dict whose `"packet"`
entry is itself a dict, that entry is returned; otherwise the resolved
value is returned unchanged. -/
def unwrap_packet (packet : RuntimeValue) (kwargs : List (String × RuntimeValue)) : RuntimeValue :=
  let resolved := match packet with
    | .none =>
        match kwargs.find? (fun (kv : String × RuntimeValue) => kv.1 == "packet") with
        | some kv => kv.2
        | Option.none => .none
    | p => p
  match resolved with
  | .dict kvs =>
      match dGet kvs "packet" with
      | some (.dict inner) => .dict inner
      | _ => .dict kvs
  | r => r

set_option linter.unusedVariables false in
/-- The handler `on_receive` of the bridge script, with its one side effect made
explicit: `some lines` is the list of lines printed to stdout (each
flushed immediately), `none` would be an uncaught exception escaping the
handler.  The `interface` keyword argument is accepted and unused, as in
the source; `kwargs` are the remaining keyword arguments, forwarded to
`unwrap_packet`. -/
def on_receive (packet interface : RuntimeValue)
    (kwargs : List (String × RuntimeValue)) : Option (List String) :=
  let resolved := unwrap_packet packet kwargs
  match resolved with
  | .none => some []
  | r =>
      match dumps (to_jsonable r) with
      | some line => some [line]
      | Option.none => Option.none

/-! ## Plain-map forms of the recursive equations

The recursive definitions above go through `List.attach` for termination;
the lemmas below restate their equations with plain `List.map`/`List.all`,
which is the form the proofs use. -/

theorem pbToRT_pmsg (fields : PBFields) :
    pbToRT (.pmsg fields) = .dict (fields.map (fun f => (.str f.1, pbToRT f.2.2))) := by
  rw [pbToRT, List.attach_map_val fields (fun f => (RuntimeValue.str f.1, pbToRT f.2.2))]

theorem pbToRT_prep (vs : List PBValue) :
    pbToRT (.prep vs) = .list (vs.map pbToRT) := by
  rw [pbToRT, List.attach_map_val vs pbToRT]

theorem to_jsonable_dict (kvs : List (RuntimeValue × RuntimeValue)) :
    to_jsonable (.dict kvs) =
      .dict (kvs.map (fun kv => (.str (pyStr kv.1), to_jsonable kv.2))) := by
  rw [to_jsonable,
    List.attach_map_val kvs (fun kv => (RuntimeValue.str (pyStr kv.1), to_jsonable kv.2))]

theorem to_jsonable_list (xs : List RuntimeValue) :
    to_jsonable (.list xs) = .list (xs.map to_jsonable) := by
  rw [to_jsonable, List.attach_map_val xs to_jsonable]

theorem to_jsonable_tuple (xs : List RuntimeValue) :
    to_jsonable (.tuple xs) = .list (xs.map to_jsonable) := by
  rw [to_jsonable, List.attach_map_val xs to_jsonable]

theorem to_jsonable_setv (xs : List RuntimeValue) :
    to_jsonable (.set xs) = .list (xs.map to_jsonable) := by
  rw [to_jsonable, List.attach_map_val xs to_jsonable]

theorem to_jsonable_pbmsg (fields : PBFields) (td : Option (Option RuntimeValue))
    (attrs : Option (Option (List (String × RuntimeValue)))) (srep : String) :
    to_jsonable (.obj (some (some fields)) td attrs srep) =
      to_jsonable (messageToDict fields) := by
  rw [to_jsonable]

theorem to_jsonable_td (pb : Option (Option PBFields))
    (hpb : pb = Option.none ∨ pb = some Option.none) (v : RuntimeValue)
    (attrs : Option (Option (List (String × RuntimeValue)))) (srep : String) :
    to_jsonable (.obj pb (some (some v)) attrs srep) = to_jsonable v := by
  rcases hpb with h | h <;> subst h <;> simp [to_jsonable]

theorem to_jsonable_attrs (pb : Option (Option PBFields))
    (hpb : pb = Option.none ∨ pb = some Option.none)
    (td : Option (Option RuntimeValue))
    (htd : td = Option.none ∨ td = some Option.none)
    (kvs : List (String × RuntimeValue)) (srep : String) :
    to_jsonable (.obj pb td (some (some kvs)) srep) =
      (if ((kvs.filter (fun kv => !(kv.1.startsWith "_"))).map
            (fun kv => (RuntimeValue.str kv.1, to_jsonable kv.2))).isEmpty
       then .str srep
       else .dict ((kvs.filter (fun kv => !(kv.1.startsWith "_"))).map
            (fun kv => (RuntimeValue.str kv.1, to_jsonable kv.2)))) := by
  have hmap := List.attach_map_val (kvs.filter (fun kv => !(kv.1.startsWith "_")))
    (fun kv => (RuntimeValue.str kv.1, to_jsonable kv.2))
  rcases hpb with h | h <;> subst h <;> rcases htd with h2 | h2 <;> subst h2 <;>
    simp only [to_jsonable] <;> rw [hmap]

theorem to_jsonable_fallback (pb : Option (Option PBFields))
    (hpb : pb = Option.none ∨ pb = some Option.none)
    (td : Option (Option RuntimeValue))
    (htd : td = Option.none ∨ td = some Option.none)
    (attrs : Option (Option (List (String × RuntimeValue))))
    (hattrs : attrs = Option.none ∨ attrs = some Option.none) (srep : String) :
    to_jsonable (.obj pb td attrs srep) = .str srep := by
  rcases hpb with h | h <;> subst h <;> rcases htd with h2 | h2 <;> subst h2 <;>
    rcases hattrs with h3 | h3 <;> subst h3 <;> rw [to_jsonable] <;> simp

theorem jsonSafe_list (xs : List RuntimeValue) :
    jsonSafe (.list xs) = xs.all jsonSafe := by
  rw [jsonSafe, Bool.eq_iff_iff]
  simp [List.all_eq_true]

theorem jsonSafe_dict (kvs : List (RuntimeValue × RuntimeValue)) :
    jsonSafe (.dict kvs) = kvs.all (fun kv => isStrKey kv.1 && jsonSafe kv.2) := by
  rw [jsonSafe, Bool.eq_iff_iff]
  simp [List.all_eq_true]

/-! ## Core lemmas -/

theorem optShape {α : Type} (o : Option (Option α))
    (h : ∀ x : α, o = some (some x) → False) :
    o = Option.none ∨ o = some Option.none := by
  match o with
  | Option.none => exact Or.inl rfl
  | some Option.none => exact Or.inr rfl
  | some (some x) => exact (h x rfl).elim

theorem map_eq_self {α : Type} (l : List α) (f : α → α) (h : ∀ x ∈ l, f x = x) :
    l.map f = l := by
  induction l with
  | nil => rfl
  | cons a t iht =>
      rw [List.map_cons, h a (by simp), iht (fun x hx => h x (List.mem_cons_of_mem a hx))]

/-- Totality/safety: the normalizer always produces a JSON-safe value. -/
theorem jsonSafe_to_jsonable (v : RuntimeValue) : jsonSafe (to_jsonable v) = true := by
  induction v using to_jsonable.induct with
  | case1 => simp [to_jsonable, jsonSafe]
  | case2 b => simp [to_jsonable, jsonSafe]
  | case3 n => simp [to_jsonable, jsonSafe]
  | case4 t => simp [to_jsonable, jsonSafe]
  | case5 s => simp [to_jsonable, jsonSafe]
  | case6 bs => simp [to_jsonable, jsonSafe]
  | case7 kvs ih =>
      rw [to_jsonable_dict, jsonSafe_dict, List.all_eq_true]
      intro kv hkv
      rw [List.mem_map] at hkv
      obtain ⟨p, hp, rfl⟩ := hkv
      simp [isStrKey, ih ⟨p, hp⟩]
  | case8 xs ih =>
      rw [to_jsonable_list, jsonSafe_list, List.all_eq_true]
      intro x hx
      rw [List.mem_map] at hx
      obtain ⟨y, hy, rfl⟩ := hx
      exact ih ⟨y, hy⟩
  | case9 xs ih =>
      rw [to_jsonable_tuple, jsonSafe_list, List.all_eq_true]
      intro x hx
      rw [List.mem_map] at hx
      obtain ⟨y, hy, rfl⟩ := hx
      exact ih ⟨y, hy⟩
  | case10 xs ih =>
      rw [to_jsonable_setv, jsonSafe_list, List.all_eq_true]
      intro x hx
      rw [List.mem_map] at hx
      obtain ⟨y, hy, rfl⟩ := hx
      exact ih ⟨y, hy⟩
  | case11 fields td attrs srep ih =>
      rw [to_jsonable_pbmsg]
      exact ih
  | case12 pb v attrs srep hpb ih =>
      rw [to_jsonable_td pb (optShape pb hpb) v attrs srep]
      exact ih
  | case13 pb td kvs srep hpb htd conv hconv ih =>
      rw [to_jsonable_attrs pb (optShape pb hpb) td (optShape td htd) kvs srep]
      by_cases hc : ((kvs.filter (fun kv => !(kv.1.startsWith "_"))).map
          (fun kv => (RuntimeValue.str kv.1, to_jsonable kv.2))).isEmpty
      · rw [if_pos hc]
        simp [jsonSafe]
      · rw [if_neg hc, jsonSafe_dict, List.all_eq_true]
        intro kv hkv
        rw [List.mem_map] at hkv
        obtain ⟨p, hp, rfl⟩ := hkv
        simp [isStrKey, ih ⟨p, hp⟩]
  | case14 pb td kvs srep hpb htd conv hconv ih =>
      rw [to_jsonable_attrs pb (optShape pb hpb) td (optShape td htd) kvs srep]
      by_cases hc : ((kvs.filter (fun kv => !(kv.1.startsWith "_"))).map
          (fun kv => (RuntimeValue.str kv.1, to_jsonable kv.2))).isEmpty
      · rw [if_pos hc]
        simp [jsonSafe]
      · rw [if_neg hc, jsonSafe_dict, List.all_eq_true]
        intro kv hkv
        rw [List.mem_map] at hkv
        obtain ⟨p, hp, rfl⟩ := hkv
        simp [isStrKey, ih ⟨p, hp⟩]
  | case15 pb td attrs srep hpb htd hattrs =>
      rw [to_jsonable_fallback pb (optShape pb hpb) td (optShape td htd)
        attrs (optShape attrs hattrs) srep]
      simp [jsonSafe]
  | case16 bs => simp [to_jsonable, jsonSafe]

/-- The normalizer is the identity on values that are already JSON-safe. -/
theorem to_jsonable_of_jsonSafe (v : RuntimeValue) (h : jsonSafe v = true) :
    to_jsonable v = v := by
  revert h
  induction v using to_jsonable.induct with
  | case1 => intro h; simp [to_jsonable]
  | case2 b => intro h; simp [to_jsonable]
  | case3 n => intro h; simp [to_jsonable]
  | case4 t => intro h; simp [to_jsonable]
  | case5 s => intro h; simp [to_jsonable]
  | case6 bs => intro h; simp [jsonSafe] at h
  | case7 kvs ih =>
      intro h
      rw [jsonSafe_dict, List.all_eq_true] at h
      rw [to_jsonable_dict]
      congr 1
      apply map_eq_self
      intro kv hkv
      have hkv2 := h kv hkv
      obtain ⟨k, v2⟩ := kv
      simp only [Bool.and_eq_true] at hkv2
      obtain ⟨hk, hv⟩ := hkv2
      cases k <;> simp [isStrKey] at hk
      rw [ih ⟨_, hkv⟩ hv]
      simp [pyStr]
  | case8 xs ih =>
      intro h
      rw [jsonSafe_list, List.all_eq_true] at h
      rw [to_jsonable_list]
      congr 1
      apply map_eq_self
      intro x hx
      exact ih ⟨x, hx⟩ (h x hx)
  | case9 xs ih => intro h; simp [jsonSafe] at h
  | case10 xs ih => intro h; simp [jsonSafe] at h
  | case11 fields td attrs srep ih => intro h; simp [jsonSafe] at h
  | case12 pb v attrs srep hpb ih => intro h; simp [jsonSafe] at h
  | case13 pb td kvs srep hpb htd conv hconv ih => intro h; simp [jsonSafe] at h
  | case14 pb td kvs srep hpb htd conv hconv ih => intro h; simp [jsonSafe] at h
  | case15 pb td attrs srep hpb htd hattrs => intro h; simp [jsonSafe] at h
  | case16 bs => intro h; simp [jsonSafe] at h

/-- The normalizer is idempotent. -/
theorem to_jsonable_idem (v : RuntimeValue) :
    to_jsonable (to_jsonable v) = to_jsonable v :=
  to_jsonable_of_jsonSafe _ (jsonSafe_to_jsonable v)

theorem hexChar_lower (n : Nat) (h : n < 16) :
    ((hexChar n).isDigit || (97 ≤ (hexChar n).toNat && (hexChar n).toNat ≤ 102)) = true := by
  revert n
  decide

theorem bytesHexChars_length (bs : List (Fin 256)) :
    (bytesHexChars bs).length = 2 * bs.length := by
  induction bs with
  | nil => rfl
  | cons b rest ih =>
      rw [bytesHexChars]
      simp [List.length_cons, ih]
      omega

theorem bytesHexChars_lower (bs : List (Fin 256)) :
    ∀ c ∈ bytesHexChars bs, (c.isDigit || (97 ≤ c.toNat && c.toNat ≤ 102)) = true := by
  induction bs with
  | nil => intro c hc; simp [bytesHexChars] at hc
  | cons b rest ih =>
      intro c hc
      rw [bytesHexChars, List.mem_cons, List.mem_cons] at hc
      rcases hc with h | h | h
      · exact h ▸ hexChar_lower _ (by omega)
      · exact h ▸ hexChar_lower _ (by omega)
      · exact ih c h

/-! ## Claims -/

/-- C1: for every constructible runtime value, `to_jsonable` returns a
JSON-safe value and never raises; when no earlier rule applies, the value
degrades to the string fallback (here: an object with none of the probed
capabilities becomes its display text) rather than signalling an error. -/
theorem normalize_is_total (v : RuntimeValue) :
    jsonSafe (to_jsonable v) = true ∧
    (∀ srep : String,
      to_jsonable (.obj Option.none Option.none Option.none srep) = .str srep) :=
  ⟨jsonSafe_to_jsonable v, fun srep =>
    to_jsonable_fallback _ (Or.inl rfl) _ (Or.inl rfl) _ (Or.inl rfl) srep⟩

/-- C3: `to_jsonable` on a raw byte sequence yields the lowercase
hexadecimal string, two hex characters per byte (so of length
`2 * len(bs)`), with no separators and no prefix; in particular the bytes
`0xAB 0x01` normalize to `"ab01"`. -/
theorem normalize_bytes_hex (bs : List (Fin 256)) :
    to_jsonable (.bytes bs) = .str (bytesHex bs) ∧
    (bytesHex bs).length = 2 * bs.length ∧
    (bytesHex bs).data.all (fun c => c.isDigit || (97 ≤ c.toNat && c.toNat ≤ 102)) = true ∧
    to_jsonable (.bytes [⟨171, by omega⟩, ⟨1, by omega⟩]) = .str "ab01" := by
  refine ⟨by simp [to_jsonable], bytesHexChars_length bs, ?_, ?_⟩
  · rw [List.all_eq_true]
    intro c hc
    exact bytesHexChars_lower bs c hc
  · simp [to_jsonable, bytesHex, bytesHexChars, hexChar]
    decide

/-- C4: `to_jsonable` on a dict returns a dict whose entries are, in the
original insertion order, the `str()` conversion of each original key
(text keys unchanged, non-text keys stringified) paired with the
recursive normalization of each original value; key order is preserved
(e.g. keys `"a"`, `"b"`, `"c"` stay in that order). -/
theorem normalize_mapping (kvs : List (RuntimeValue × RuntimeValue)) :
    to_jsonable (.dict kvs) =
      .dict (kvs.map (fun kv => (.str (pyStr kv.1), to_jsonable kv.2))) ∧
    (∀ s : String, pyStr (.str s) = s) ∧
    dictKeys (to_jsonable (.dict kvs)) = kvs.map (fun kv => .str (pyStr kv.1)) ∧
    dictKeys (to_jsonable (.dict
        [(.str "a", .int 1), (.str "b", .int 2), (.str "c", .int 3)])) =
      [.str "a", .str "b", .str "c"] := by
  refine ⟨to_jsonable_dict kvs, fun s => rfl, ?_, ?_⟩
  · rw [to_jsonable_dict]
    simp [dictKeys]
  · rw [to_jsonable_dict]
    simp [dictKeys, pyStr]

/-- C8: `to_jsonable` is the identity on values that are already
JSON-safe (null, bool, number, string, array of safe values, object with
string keys and safe values), and hence idempotent on every value. -/
theorem normalize_idempotent :
    (∀ v : RuntimeValue, jsonSafe v = true → to_jsonable v = v) ∧
    (∀ v : RuntimeValue, to_jsonable (to_jsonable v) = to_jsonable v) :=
  ⟨to_jsonable_of_jsonSafe, to_jsonable_idem⟩

/-- C8 witness: the identity half applied at the JSON-safe value
`{"a": [1, null]}`. -/
theorem normalize_idempotent_witness :
    jsonSafe (.dict [(.str "a", .list [.int 1, .none])]) = true ∧
    to_jsonable (.dict [(.str "a", .list [.int 1, .none])]) =
      .dict [(.str "a", .list [.int 1, .none])] :=
  ⟨by simp [jsonSafe, isStrKey],
   normalize_idempotent.1 _ (by simp [jsonSafe, isStrKey])⟩

/-- C9: `to_jsonable` is pure and deterministic — its result depends only
on its argument, so equal inputs always produce equal outputs (it is
modelled as a side-effect-free function). -/
theorem normalize_deterministic (v w : RuntimeValue) (h : v = w) :
    to_jsonable v = to_jsonable w :=
  congrArg to_jsonable h

/-- C9 witness: determinism applied at a concrete input. -/
theorem normalize_deterministic_witness :
    to_jsonable (.list [.int 1]) = to_jsonable (.list [.int 1]) :=
  normalize_deterministic (.list [.int 1]) (.list [.int 1]) rfl

/-- C10: a `bytearray` matches neither the `bytes` rule (it is not an
instance of `bytes`) nor any container or structured-record rule, so
`to_jsonable` returns its display text via the string fallback — for
`bytearray(b'\xab\x01')` that is not the hex string `"ab01"` that the
same bytes would produce. -/
theorem normalize_bytearray_fallback (bs : List (Fin 256)) :
    to_jsonable (.bytearray bs) = .str (pyStr (.bytearray bs)) ∧
    pyStr (.bytearray [⟨171, by omega⟩, ⟨1, by omega⟩]) ≠
      bytesHex [⟨171, by omega⟩, ⟨1, by omega⟩] := by
  constructor
  · simp [to_jsonable]
  · simp [pyStr, pyRepr, pyBytesReprChars, pyQuoteChoice, escapeList, pyByteEscape,
      sqChar, dqChar, bslChar, hexChar, bytesHex, bytesHexChars]
    decide

theorem pb_raises_fallthrough (td : Option (Option RuntimeValue))
    (attrs : Option (Option (List (String × RuntimeValue)))) (srep : String) :
    to_jsonable (.obj (some Option.none) td attrs srep) =
      to_jsonable (.obj Option.none td attrs srep) := by
  match td, attrs with
  | some (some v), attrs =>
      rw [to_jsonable_td _ (Or.inr rfl) v attrs srep,
        to_jsonable_td _ (Or.inl rfl) v attrs srep]
  | Option.none, some (some kvs) =>
      rw [to_jsonable_attrs _ (Or.inr rfl) _ (Or.inl rfl) kvs srep,
        to_jsonable_attrs _ (Or.inl rfl) _ (Or.inl rfl) kvs srep]
  | some Option.none, some (some kvs) =>
      rw [to_jsonable_attrs _ (Or.inr rfl) _ (Or.inr rfl) kvs srep,
        to_jsonable_attrs _ (Or.inl rfl) _ (Or.inr rfl) kvs srep]
  | Option.none, Option.none =>
      rw [to_jsonable_fallback _ (Or.inr rfl) _ (Or.inl rfl) _ (Or.inl rfl) srep,
        to_jsonable_fallback _ (Or.inl rfl) _ (Or.inl rfl) _ (Or.inl rfl) srep]
  | Option.none, some Option.none =>
      rw [to_jsonable_fallback _ (Or.inr rfl) _ (Or.inl rfl) _ (Or.inr rfl) srep,
        to_jsonable_fallback _ (Or.inl rfl) _ (Or.inl rfl) _ (Or.inr rfl) srep]
  | some Option.none, Option.none =>
      rw [to_jsonable_fallback _ (Or.inr rfl) _ (Or.inr rfl) _ (Or.inl rfl) srep,
        to_jsonable_fallback _ (Or.inl rfl) _ (Or.inr rfl) _ (Or.inl rfl) srep]
  | some Option.none, some Option.none =>
      rw [to_jsonable_fallback _ (Or.inr rfl) _ (Or.inr rfl) _ (Or.inr rfl) srep,
        to_jsonable_fallback _ (Or.inl rfl) _ (Or.inr rfl) _ (Or.inr rfl) srep]

/-- C2: a protobuf-like structured-record value is converted with
`MessageToDict`, which keys the resulting mapping by the declared field
names (never positional field numbers) and encodes enum fields as their
integer codes (not their symbolic names); the resulting mapping is then
normalized recursively by the mapping rule.  If the conversion raises,
the rule is skipped (the error is not re-raised) and evaluation falls
through to the following rules, which see the object unchanged. -/
theorem normalize_pb_rule (fields : PBFields) (td : Option (Option RuntimeValue))
    (attrs : Option (Option (List (String × RuntimeValue)))) (srep : String) :
    to_jsonable (.obj (some (some fields)) td attrs srep) =
      to_jsonable (messageToDict fields) ∧
    messageToDict fields = .dict (fields.map (fun f => (.str f.1, pbToRT f.2.2))) ∧
    (∀ (name : String) (code : Int), pbToRT (.penum name code) = .int code) ∧
    to_jsonable (.obj (some Option.none) td attrs srep) =
      to_jsonable (.obj Option.none td attrs srep) ∧
    to_jsonable (.obj (some (some
        [("latitude_i", 7, .pint 377749), ("longitude_i", 8, .pint (-1224194))]))
        Option.none Option.none "s") =
      .dict [(.str "latitude_i", .int 377749), (.str "longitude_i", .int (-1224194))] := by
  refine ⟨to_jsonable_pbmsg fields td attrs srep, rfl,
    fun name code => by simp [pbToRT], pb_raises_fallthrough td attrs srep, ?_⟩
  rw [to_jsonable_pbmsg]
  simp [messageToDict, pbToRT]
  rw [to_jsonable_dict]
  simp [pyStr, to_jsonable]

/-- C5: payload extraction unwraps exactly one level of `"packet"`-keyed
wrapping when the notification is a dict whose `"packet"` entry is a
dict, and passes the value through unchanged otherwise; in particular
`{"packet": {"from": 1}}` and `{"from": 1}` normalize to the same
output. -/
theorem unwrap_one_level :
    (∀ (kvs inner : List (RuntimeValue × RuntimeValue))
        (kwargs : List (String × RuntimeValue)),
      dGet kvs "packet" = some (.dict inner) →
      unwrap_packet (.dict kvs) kwargs = .dict inner) ∧
    (∀ (kvs : List (RuntimeValue × RuntimeValue))
        (kwargs : List (String × RuntimeValue)),
      (∀ inner, dGet kvs "packet" ≠ some (.dict inner)) →
      unwrap_packet (.dict kvs) kwargs = .dict kvs) ∧
    (∀ (v : RuntimeValue) (kwargs : List (String × RuntimeValue)),
      v ≠ .none → isDictV v = false → unwrap_packet v kwargs = v) ∧
    to_jsonable (unwrap_packet (.dict [(.str "packet", .dict [(.str "from", .int 1)])]) []) =
      to_jsonable (unwrap_packet (.dict [(.str "from", .int 1)]) []) := by
  refine ⟨?_, ?_, ?_, ?_⟩
  · intro kvs inner kwargs h
    simp only [unwrap_packet]
    rw [h]
  · intro kvs kwargs h
    rcases hd : dGet kvs "packet" with _ | val
    · simp [unwrap_packet, hd]
    · match val, hd with
      | .dict inner, hd => exact absurd hd (h inner)
      | .none, hd | .bool _, hd | .int _, hd | .float _, hd | .str _, hd
      | .bytes _, hd | .bytearray _, hd | .list _, hd | .tuple _, hd
      | .set _, hd | .obj _ _ _ _, hd => simp [unwrap_packet, hd]
  · intro v kwargs hv hd
    cases v <;> simp_all [unwrap_packet, isDictV]
  · simp [unwrap_packet, dGet]

/-- C5 witness: the unwrap half applied at `{"packet": {"from": 1}}`. -/
theorem unwrap_one_level_witness :
    unwrap_packet (.dict [(.str "packet", .dict [(.str "from", .int 1)])]) [] =
      .dict [(.str "from", .int 1)] :=
  unwrap_one_level.1 [(.str "packet", .dict [(.str "from", .int 1)])]
    [(.str "from", .int 1)] [] rfl

/-- C6: the "exported attributes" rule keeps only attributes whose name
does not start with `_`, normalizes each kept value recursively, and if
the resulting mapping would be empty the value falls through to the
string fallback — in particular the rule never emits the empty object. -/
theorem normalize_attrs_rule (pb : Option (Option PBFields))
    (hpb : pb = Option.none ∨ pb = some Option.none)
    (td : Option (Option RuntimeValue))
    (htd : td = Option.none ∨ td = some Option.none)
    (kvs : List (String × RuntimeValue)) (srep : String) :
    to_jsonable (.obj pb td (some (some kvs)) srep) =
      (if ((kvs.filter (fun kv => !(kv.1.startsWith "_"))).map
            (fun kv => (RuntimeValue.str kv.1, to_jsonable kv.2))).isEmpty
       then .str srep
       else .dict ((kvs.filter (fun kv => !(kv.1.startsWith "_"))).map
            (fun kv => (RuntimeValue.str kv.1, to_jsonable kv.2)))) ∧
    to_jsonable (.obj pb td (some (some kvs)) srep) ≠ .dict [] := by
  have heq := to_jsonable_attrs pb hpb td htd kvs srep
  refine ⟨heq, ?_⟩
  rw [heq]
  by_cases hc : ((kvs.filter (fun kv => !(kv.1.startsWith "_"))).map
      (fun kv => (RuntimeValue.str kv.1, to_jsonable kv.2))).isEmpty
  · rw [if_pos hc]
    simp
  · rw [if_neg hc]
    intro hcontra
    rw [RuntimeValue.dict.injEq] at hcontra
    exact hc (List.isEmpty_iff.mpr hcontra)

/-- C6 witness: an object whose only exported attribute is `x = 1`
(rule applies, mapping nonempty) does not normalize to `\x7b\x7d`. -/
theorem normalize_attrs_rule_witness :
    to_jsonable (.obj Option.none Option.none (some (some [("x", .int 1)])) "o") ≠
      .dict [] :=
  (normalize_attrs_rule Option.none (Or.inl rfl) Option.none (Or.inl rfl)
    [("x", .int 1)] "o").2

/-- C7: a notification whose resolved payload is absent produces zero
output lines, and the handler returns normally (no exception), so the
relay loop is not terminated: the drop is silent. -/
theorem dropped_notification (packet interface : RuntimeValue)
    (kwargs : List (String × RuntimeValue))
    (h : unwrap_packet packet kwargs = .none) :
    on_receive packet interface kwargs = some [] := by
  simp [on_receive, h]

/-- C7 witness: the handler with no packet argument at all emits
nothing and returns normally. -/
theorem dropped_notification_witness : on_receive .none .none [] = some [] :=
  dropped_notification .none .none [] rfl

end MeshtasticBridge
